import Mathlib

/-!
Shallow embedding of the redirect-serving and click-intelligence core of the
`dubly` link shortener (Go), together with proofs about its specified
behaviour.  Each Go function referenced by the development is translated into
an executable Lean definition; external effects (network fetches, the SQL
database, the UA-parser library, the MaxMind database) appear as explicit
inputs of the translated functions.
-/

set_option autoImplicit false

namespace Dubly

/-! ## Go string primitives

`strStarts s t` models Go `strings.HasPrefix(s, t)`, `strContains s t` models
Go `strings.Contains(s, t)`, and `lowerChar` models the ASCII fragment of Go
`strings.ToLower` (every string these functions are applied to in the claims
is ASCII). -/

def strStarts : List Char → List Char → Bool
  | _, [] => true
  | [], _ :: _ => false
  | a :: s, b :: t => a == b && strStarts s t

def strContains : List Char → List Char → Bool
  | [], sub => strStarts [] sub
  | a :: s, sub => strStarts (a :: s) sub || strContains s sub

def lowerChar (c : Char) : Char :=
  if 'A' ≤ c ∧ c ≤ 'Z' then Char.ofNat (c.toNat + 32) else c

def goToLower (s : String) : String := ⟨s.data.map lowerChar⟩

/-- String-level Go `strings.Contains`. -/
def strContainsS (s sub : String) : Bool := strContains s.data sub.data

theorem strStarts_iff (t : List Char) : ∀ s : List Char,
    strStarts s t = true ↔ ∃ r, s = t ++ r := by
  induction t with
  | nil =>
    intro s
    simp [strStarts]
  | cons b t ih =>
    intro s
    cases s with
    | nil =>
      simp [strStarts]
    | cons a s =>
      simp only [strStarts, Bool.and_eq_true, beq_iff_eq, ih s, List.cons_append,
        List.cons.injEq]
      constructor
      · rintro ⟨rfl, r, rfl⟩
        exact ⟨r, rfl, rfl⟩
      · rintro ⟨r, rfl, rfl⟩
        exact ⟨rfl, r, rfl⟩

theorem strContains_iff (t : List Char) : ∀ s : List Char,
    strContains s t = true ↔ ∃ u v, s = u ++ t ++ v := by
  intro s
  induction s with
  | nil =>
    simp only [strContains, strStarts_iff]
    constructor
    · rintro ⟨r, hr⟩
      exact ⟨[], r, by simpa using hr⟩
    · rintro ⟨u, v, huv⟩
      obtain ⟨hu, ht, hv⟩ : u = [] ∧ t = [] ∧ v = [] := by simpa using huv.symm
      exact ⟨v, by simp [ht, hv]⟩
  | cons a s ih =>
    simp only [strContains, Bool.or_eq_true, strStarts_iff, ih]
    constructor
    · rintro (⟨r, hr⟩ | ⟨u, v, huv⟩)
      · exact ⟨[], r, by simpa using hr⟩
      · exact ⟨a :: u, v, by simp [huv]⟩
    · rintro ⟨u, v, huv⟩
      cases u with
      | nil => exact Or.inl ⟨v, by simpa using huv⟩
      | cons x u =>
        refine Or.inr ⟨u, v, ?_⟩
        have := huv
        simp only [List.cons_append, List.cons.injEq] at this
        exact this.2

theorem strContains_map (f : Char → Char) {s t : List Char}
    (h : strContains s t = true) :
    strContains (s.map f) (t.map f) = true := by
  rcases (strContains_iff t s).mp h with ⟨u, v, rfl⟩
  exact (strContains_iff _ _).mpr ⟨u.map f, v.map f, by simp⟩

theorem strContains_trans {a b c : List Char}
    (hab : strContains a b = true) (hbc : strContains b c = true) :
    strContains a c = true := by
  rcases (strContains_iff b a).mp hab with ⟨u, v, rfl⟩
  rcases (strContains_iff c b).mp hbc with ⟨u', v', rfl⟩
  exact (strContains_iff _ _).mpr ⟨u ++ u', v' ++ v, by simp⟩

/-! ## Go `net` package: IP parsing and CIDR containment

IP addresses are modelled as Go models them: byte slices (`List Nat`, each
byte < 256), of length 4 (IPv4) or 16 (IPv6, with IPv4 addresses stored in
IPv4-in-IPv6 form by `ParseIP`). -/

def v4InV6 : List Nat := [0, 0, 0, 0, 0, 0, 0, 0, 0, 0, 255, 255]

/-- Go `net.dtoi`: scan leading decimal digits, failing on none or on
overflow past `big = 0xFFFFFF`.  Returns (value, digits consumed, rest). -/
def dtoiAux : List Char → Nat → Nat → Option (Nat × Nat × List Char)
  | [], n, cnt => if cnt = 0 then none else some (n, cnt, [])
  | c :: rest, n, cnt =>
    if c.isDigit then
      let n' := n * 10 + (c.toNat - '0'.toNat)
      if n' ≥ 0xFFFFFF then none else dtoiAux rest n' (cnt + 1)
    else if cnt = 0 then none else some (n, cnt, c :: rest)

def dtoi (s : List Char) : Option (Nat × Nat × List Char) := dtoiAux s 0 0

def hexDigitVal (c : Char) : Option Nat :=
  if '0' ≤ c ∧ c ≤ '9' then some (c.toNat - '0'.toNat)
  else if 'a' ≤ c ∧ c ≤ 'f' then some (c.toNat - 'a'.toNat + 10)
  else if 'A' ≤ c ∧ c ≤ 'F' then some (c.toNat - 'A'.toNat + 10)
  else none

/-- Go `net.xtoi`: scan leading hex digits, failing on none or overflow. -/
def xtoiAux : List Char → Nat → Nat → Option (Nat × Nat × List Char)
  | [], n, cnt => if cnt = 0 then none else some (n, cnt, [])
  | c :: rest, n, cnt =>
    match hexDigitVal c with
    | some d =>
      let n' := n * 16 + d
      if n' ≥ 0xFFFFFF then none else xtoiAux rest n' (cnt + 1)
    | none => if cnt = 0 then none else some (n, cnt, c :: rest)

def xtoi (s : List Char) : Option (Nat × Nat × List Char) := xtoiAux s 0 0

/-- One dotted-decimal field of Go `net.parseIPv4` (Go ≥ 1.17: value ≤ 255,
no leading zeros). -/
def parseIPv4Field (s : List Char) : Option (Nat × List Char) :=
  match dtoi s with
  | none => none
  | some (n, c, rest) =>
    if n > 0xFF then none
    else if c > 1 ∧ s.head? = some '0' then none
    else some (n, rest)

def expectDot : List Char → Option (List Char)
  | '.' :: r => some r
  | _ => none

/-- Go `net.parseIPv4`: four dotted-decimal fields; result in Go's
IPv4-in-IPv6 16-byte form (the `IPv4(a,b,c,d)` constructor). -/
def parseIPv4 (s : List Char) : Option (List Nat) := do
  let (a, s) ← parseIPv4Field s
  let s ← expectDot s
  let (b, s) ← parseIPv4Field s
  let s ← expectDot s
  let (c, s) ← parseIPv4Field s
  let s ← expectDot s
  let (d, s) ← parseIPv4Field s
  if s = [] then pure (v4InV6 ++ [a, b, c, d]) else none

/-- The group-scanning loop of Go `net.parseIPv6`.  `acc` holds the bytes
written so far, `ell` the ellipsis position.  Returns the bytes, the
ellipsis position and the unconsumed input at loop exit. -/
def parseIPv6Loop : Nat → List Char → List Nat → Option Nat →
    Option (List Nat × Option Nat × List Char)
  | 0, s, acc, ell => some (acc, ell, s)
  | fuel + 1, s, acc, ell =>
    if acc.length ≥ 16 then some (acc, ell, s)
    else
      match xtoi s with
      | none => none
      | some (n, _, rest) =>
        if n > 0xFFFF then none
        else if rest.head? = some '.' then
          if (ell = none ∧ acc.length ≠ 12) ∨ acc.length + 4 > 16 then none
          else
            match parseIPv4 s with
            | none => none
            | some ip16 => some (acc ++ ip16.drop 12, ell, [])
        else
          let acc := acc ++ [n / 256, n % 256]
          match rest with
          | [] => some (acc, ell, [])
          | ':' :: [] => none
          | ':' :: ':' :: rest2 =>
            match ell with
            | some _ => none
            | none =>
              match rest2 with
              | [] => some (acc, some acc.length, [])
              | _ => parseIPv6Loop fuel rest2 acc (some acc.length)
          | ':' :: rest1 => parseIPv6Loop fuel rest1 acc ell
          | _ => none

/-- Post-loop ellipsis expansion of Go `net.parseIPv6`. -/
def finishIPv6 (acc : List Nat) (ell : Option Nat) (rem : List Char) :
    Option (List Nat) :=
  if rem ≠ [] then none
  else if acc.length < 16 then
    match ell with
    | none => none
    | some e => some (acc.take e ++ List.replicate (16 - acc.length) 0 ++ acc.drop e)
  else
    match ell with
    | some _ => none
    | none => some acc

/-- Go `net.parseIPv6`. -/
def parseIPv6 (s : List Char) : Option (List Nat) :=
  match s with
  | ':' :: ':' :: rest =>
    if rest = [] then some (List.replicate 16 0)
    else
      match parseIPv6Loop 9 rest [] (some 0) with
      | none => none
      | some (acc, ell, rem) => finishIPv6 acc ell rem
  | _ =>
    match parseIPv6Loop 9 s [] none with
    | none => none
    | some (acc, ell, rem) => finishIPv6 acc ell rem

/-- Go `net.splitHostZone` + `parseIPv6Zone`: the zone after the last `%`
is split off and discarded by `ParseIP`. -/
def parseIPv6Zone (s : List Char) : Option (List Nat) :=
  match (s.reverse.findIdx? (· = '%')) with
  | some j => parseIPv6 (s.take (s.length - 1 - j))
  | none => parseIPv6 s

/-- The dispatch loop of Go `net.ParseIP`: the first `.` or `:` decides the
address family. -/
def parseIPList : List Char → List Char → Option (List Nat)
  | [], _ => none
  | '.' :: _, full => parseIPv4 full
  | ':' :: _, full => parseIPv6Zone full
  | _ :: rest, full => parseIPList rest full

/-- Go `net.ParseIP`. -/
def parseIP (s : String) : Option (List Nat) := parseIPList s.data s.data

/-- One byte of Go `net.CIDRMask`: `won` leading one bits (0–8). -/
def maskByte (won : Nat) : Nat := (255 <<< (8 - won)) &&& 255

/-- Go `net.CIDRMask ones bits` as a byte list. -/
def cidrMask (ones bits : Nat) : List Nat :=
  (List.range (bits / 8)).map fun i => maskByte (min 8 (ones - min ones (i * 8)))

/-- Go `net.IP.Mask`. -/
def ipMask (ip mask : List Nat) : Option (List Nat) :=
  let mask :=
    if mask.length = 16 ∧ ip.length = 4 ∧ (mask.take 12).all (· == 255)
    then mask.drop 12 else mask
  let ip :=
    if mask.length = 4 ∧ ip.length = 16 ∧ ip.take 12 = v4InV6
    then ip.drop 12 else ip
  if ip.length = mask.length then some (List.zipWith (fun a b => a &&& b) ip mask)
  else none

/-- A `*net.IPNet`: network number and mask, as produced by `ParseCIDR`. -/
structure IPNet where
  ip : List Nat
  mask : List Nat
  deriving DecidableEq

/-- Go `net.ParseCIDR` (returning only the `*net.IPNet`). -/
def parseCIDRNet (s : String) : Option IPNet :=
  match s.data.findIdx? (· = '/') with
  | none => none
  | some i =>
    let addr := s.data.take i
    let maskStr := s.data.drop (i + 1)
    let (ipO, iplen) :=
      match parseIPv4 addr with
      | some ip => (some ip, 4)
      | none => (parseIPv6Zone addr, 16)
    match ipO with
    | none => none
    | some ip =>
      match dtoi maskStr with
      | none => none
      | some (n, _, rest) =>
        if rest ≠ [] ∨ n > 8 * iplen then none
        else
          let m := cidrMask n (8 * iplen)
          match ipMask ip m with
          | none => none
          | some masked => some ⟨masked, m⟩

/-- The mutable lists owned by `datacenter.Checker`: CIDR ranges plus the
individual blocked-IP set (`map[string]bool` modelled as its key list). -/
structure ThreatIndex where
  ranges : List IPNet
  blockedIPs : List String
  deriving DecidableEq

/-- The merge step of `Checker.refresh`, with the per-source fetch outcomes
as inputs (`none` = that source errored; on a partial `fetchAllRanges`
failure the successful sources' ranges are still used, exactly as the code
assigns `newRanges = ranges` even when `err != nil`).  The aggregate new
range list replaces the old one only when non-empty, and independently the
aggregate new blocked-IP set replaces the old one only when non-empty. -/
def refresh (st : ThreatIndex) (rangeResults : List (Option (List IPNet)))
    (ipResults : List (Option (List String))) : ThreatIndex :=
  let newRanges := (rangeResults.filterMap id).flatten
  let newBlocked := (ipResults.filterMap id).flatten
  { ranges := if newRanges.length > 0 then newRanges else st.ranges
    blockedIPs := if newBlocked.length > 0 then newBlocked else st.blockedIPs }

/-- The hardcoded Akamai CIDR list (a static range source of `refresh`). -/
def akamaiCIDR : List String :=
  ["23.32.0.0/11", "23.192.0.0/11", "2.16.0.0/13", "104.64.0.0/10",
   "184.24.0.0/13", "23.0.0.0/12", "95.100.0.0/15", "92.122.0.0/15",
   "184.50.0.0/15", "88.221.0.0/16", "23.64.0.0/14", "72.246.0.0/15",
   "96.16.0.0/15", "96.6.0.0/15", "69.192.0.0/16", "23.72.0.0/13",
   "173.222.0.0/15", "118.214.0.0/16", "184.84.0.0/14"]

/-- The hardcoded Scaleway CIDR list (a static range source of `refresh`). -/
def scalewayCIDR : List String :=
  ["62.210.0.0/16", "195.154.0.0/16", "212.129.0.0/18", "62.4.0.0/19",
   "212.83.128.0/19", "212.83.160.0/19", "212.47.224.0/19", "163.172.0.0/16",
   "51.15.0.0/16", "151.115.0.0/16", "51.158.0.0/15"]

/-- `datacenter.parseCIDRList` / `parseIPRanges` on an in-memory list:
blank and `#` lines are skipped, unparseable CIDRs are skipped. -/
def parseCIDRList (cidrs : List String) : List IPNet :=
  cidrs.filterMap fun line =>
    if line = "" ∨ line.data.head? = some '#' then none else parseCIDRNet line

/-! ## `internal/models`: the Link record -/

/-- `models.Link` (timestamps as abstract ticks). -/
structure Link where
  id : Int
  slug : String
  domain : String
  shortURL : String
  destination : String
  title : String
  tags : String
  notes : String
  isActive : Bool
  createdAt : Nat
  updatedAt : Nat
  deriving DecidableEq, Inhabited

/-! ## `internal/cache`: the RedirectCache

`cache.LinkCache` wraps `hashicorp/golang-lru/v2`; the LRU is modelled as its
entry list in recency order (head = most recently used), mirroring
`simplelru.LRU`: `Add` of a present key moves it to the front and updates the
value; `Add` of a fresh key pushes it to the front and removes the oldest
entry when the length exceeds the fixed size; `Get` moves the hit to the
front; `Remove` deletes the key. -/

structure LinkCacheM where
  size : Nat
  entries : List (String × Link)
  deriving DecidableEq

/-- `cache.New` (the library rejects a non-positive size). -/
def cacheNew (size : Nat) : Option LinkCacheM :=
  if size ≤ 0 then none else some ⟨size, []⟩

/-- `cache.key`. -/
def cacheKey (domain slug : String) : String := domain ++ "/" ++ slug

/-- `simplelru.LRU.Add`. -/
def lruAdd (c : LinkCacheM) (k : String) (v : Link) : LinkCacheM :=
  if c.entries.any (fun e => e.1 == k) then
    { c with entries := (k, v) :: c.entries.filter (fun e => !(e.1 == k)) }
  else
    let es := (k, v) :: c.entries
    { c with entries := if es.length > c.size then es.dropLast else es }

/-- `simplelru.LRU.Get` (the hit becomes most recently used). -/
def lruGet (c : LinkCacheM) (k : String) : Option Link × LinkCacheM :=
  match c.entries.find? (fun e => e.1 == k) with
  | some e => (some e.2, { c with entries := e :: c.entries.filter (fun x => !(x.1 == k)) })
  | none => (none, c)

/-- `simplelru.LRU.Remove`. -/
def lruRemove (c : LinkCacheM) (k : String) : LinkCacheM :=
  { c with entries := c.entries.filter (fun x => !(x.1 == k)) }

/-- `LinkCache.Get`. -/
def LinkCacheM.Get (c : LinkCacheM) (domain slug : String) : Option Link × LinkCacheM :=
  lruGet c (cacheKey domain slug)

/-- `LinkCache.Set`. -/
def LinkCacheM.Set (c : LinkCacheM) (domain slug : String) (link : Link) : LinkCacheM :=
  lruAdd c (cacheKey domain slug) link

/-- `LinkCache.Invalidate`. -/
def LinkCacheM.Invalidate (c : LinkCacheM) (domain slug : String) : LinkCacheM :=
  lruRemove c (cacheKey domain slug)

/-- One cache call issued by a request-handling task. -/
inductive CacheOp where
  | set (domain slug : String) (link : Link)
  | get (domain slug : String)
  | invalidate (domain slug : String)
  deriving DecidableEq

def cacheStep (c : LinkCacheM) : CacheOp → LinkCacheM
  | .set d s l => c.Set d s l
  | .get d s => (c.Get d s).2
  | .invalidate d s => c.Invalidate d s

/-- A whole `set`/`get`/`invalidate` history against a fresh cache of the
given size. -/
def runOps (size : Nat) (ops : List CacheOp) : LinkCacheM :=
  ops.foldl cacheStep ⟨size, []⟩

/-! ## `internal/web` (admin handlers): write-path cache invalidation -/

/-- The form fields read by `AdminHandler.LinkUpdate`. -/
structure LinkForm where
  destination : String
  domain : String
  slug : String
  title : String
  tags : String
  notes : String
  utmSource : String
  utmMedium : String
  utmCampaign : String
  utmTerm : String
  utmContent : String
  deriving DecidableEq

/-- `config.Config.IsDomainAllowed`: case-insensitive comparison
(`strings.EqualFold`) against the configured domain list. -/
def isDomainAllowed (domains : List String) (domain : String) : Bool :=
  domains.any fun d => goToLower d == goToLower domain

/-- `AdminHandler.LinkUpdate`, restricted to its link/cache effect.  The id
parse, DB fetch, template rendering and `models.UpdateLink` call are outside
the model; `buildDest` stands for `buildDestinationWithUTM` (pure URL
plumbing that never touches the cache).  On validation errors the handler
re-renders and the cache is untouched; on the success path it captures the
pre-mutation `(domain, slug)`, mutates `existing`, and invalidates the cache
under the captured key (a `models.UpdateLink` failure does not touch the
cache again). -/
def linkUpdate (domains : List String) (buildDest : String → LinkForm → String)
    (existing : Link) (form : LinkForm) (cache : LinkCacheM) :
    LinkCacheM × Option Link :=
  let domain := goToLower form.domain
  if form.destination == "" || form.slug == "" || !(isDomainAllowed domains domain) then
    (cache, none)
  else
    let oldDomain := existing.domain
    let oldSlug := existing.slug
    let updated := { existing with
      slug := form.slug
      domain := domain
      destination := buildDest form.destination form
      title := form.title
      tags := form.tags
      notes := form.notes }
    (cache.Invalidate oldDomain oldSlug, some updated)

/-- `AdminHandler.LinkDelete`, restricted to its cache effect: when the
link's `GetLinkByID` fetch succeeds the handler invalidates the cache under
the link's current `(domain, slug)`; the soft delete itself is a DB write. -/
def linkDelete (fetched : Option Link) (cache : LinkCacheM) : LinkCacheM :=
  match fetched with
  | some link => cache.Invalidate link.domain link.slug
  | none => cache

/-! ## Go `net/url`: the host-relevant fragment of `url.Parse`

Modelled from the Go standard library source: fragment split, control-byte
check, scheme scan, query split, authority/host parsing with bracketed IPv6
hosts, port validation, userinfo validation, and percent-escape
validation/decoding. -/

structure GoURL where
  scheme : String
  opq : String
  user : String
  host : String
  path : String
  rawQuery : String
  fragment : String
  deriving DecidableEq, Inhabited

/-- Go `stringContainsCTLByte`'s per-byte test. -/
def ctlByte (c : Char) : Bool := c.toNat < 0x20 || c.toNat == 0x7f

/-- Go `net/url.split(s, sep, cutc)`: cut at the first separator. -/
def splitOnceFwd (s : List Char) (sep : Char) (cutc : Bool) : List Char × List Char :=
  match s.findIdx? (· = sep) with
  | none => (s, [])
  | some i => (s.take i, if cutc then s.drop (i + 1) else s.drop i)

/-- Go `getScheme`: `none` is the "missing protocol scheme" error; a scheme
of `[]` means the URL has no scheme. -/
def getSchemeLoop (full : List Char) : List Char → Nat → Option (List Char × List Char)
  | [], _ => some ([], full)
  | c :: rest, i =>
    if ('a' ≤ c ∧ c ≤ 'z') ∨ ('A' ≤ c ∧ c ≤ 'Z') then getSchemeLoop full rest (i + 1)
    else if c.isDigit ∨ c = '+' ∨ c = '-' ∨ c = '.' then
      if i = 0 then some ([], full) else getSchemeLoop full rest (i + 1)
    else if c = ':' then
      if i = 0 then none else some (full.take i, full.drop (i + 1))
    else some ([], full)

def getScheme (s : List Char) : Option (List Char × List Char) := getSchemeLoop s s 0

/-- Every `%` is followed by two hex digits (Go `unescape` fails otherwise). -/
def validEsc : List Char → Bool
  | [] => true
  | '%' :: a :: b :: rest =>
    (hexDigitVal a).isSome && (hexDigitVal b).isSome && validEsc rest
  | '%' :: _ => false
  | _ :: rest => validEsc rest

/-- Percent-decoding (Go `unescape` on a string `validEsc` accepts). -/
def unescapePct : List Char → List Char
  | [] => []
  | '%' :: a :: b :: rest =>
    match hexDigitVal a, hexDigitVal b with
    | some x, some y => Char.ofNat (x * 16 + y) :: unescapePct rest
    | _, _ => '%' :: unescapePct (a :: b :: rest)
  | c :: rest => c :: unescapePct rest

/-- Go `validOptionalPort`. -/
def validOptionalPort : List Char → Bool
  | [] => true
  | ':' :: rest => rest.all (·.isDigit)
  | _ => false

/-- Go `shouldEscape(c, encodeHost)` (the same set governs `encodeZone`'s
raw bytes): alphanumerics, the host sub-delims
`! $ & ' ( ) * + , ; = : [ ] < > "` and the unreserved marks `- _ . ~` need
no escaping; every other ASCII byte does. -/
def shouldEscapeHost (c : Char) : Bool :=
  if ('a' ≤ c ∧ c ≤ 'z') ∨ ('A' ≤ c ∧ c ≤ 'Z') ∨ ('0' ≤ c ∧ c ≤ '9') then false
  else if c ∈ ['!', '$', '&', '\'', '(', ')', '*', '+', ',', ';', '=', ':',
               '[', ']', '<', '>', '"'] then false
  else if c ∈ ['-', '_', '.', '~'] then false
  else true

/-- Go `unescape(s, encodeHost)`: malformed `%` sequences fail; `%`-escapes
of ASCII bytes fail unless the escape is literally `%25`; raw ASCII bytes
that `shouldEscape` for hosts fail (`InvalidHostError`); bytes ≥ 0x80 pass
raw or escaped. -/
def unescapeHost : List Char → Option (List Char)
  | [] => some []
  | '%' :: a :: b :: t =>
    match hexDigitVal a, hexDigitVal b with
    | some x, some y =>
      if x < 8 ∧ ¬(a = '2' ∧ b = '5') then none
      else (unescapeHost t).map (Char.ofNat (x * 16 + y) :: ·)
    | _, _ => none
  | '%' :: _ => none
  | c :: t =>
    if c.toNat < 0x80 ∧ shouldEscapeHost c then none
    else (unescapeHost t).map (c :: ·)

/-- Go `unescape(s, encodeZone)`: like the host mode for raw bytes, but a
`%`-escape is allowed only when it is `%25`, decodes to a space, or decodes
to a byte that would be a valid raw host byte. -/
def unescapeZone : List Char → Option (List Char)
  | [] => some []
  | '%' :: a :: b :: t =>
    match hexDigitVal a, hexDigitVal b with
    | some x, some y =>
      let v := x * 16 + y
      if ¬(a = '2' ∧ b = '5') ∧ v ≠ 32 ∧ shouldEscapeHost (Char.ofNat v) then none
      else (unescapeZone t).map (Char.ofNat v :: ·)
    | _, _ => none
  | '%' :: _ => none
  | c :: t =>
    if c.toNat < 0x80 ∧ shouldEscapeHost c then none
    else (unescapeZone t).map (c :: ·)

/-- Go `strings.Index` (first occurrence of `sub`, as an index). -/
def indexOfSub (sub : List Char) : List Char → Option Nat
  | [] => if strStarts [] sub then some 0 else none
  | c :: t =>
    if strStarts (c :: t) sub then some 0
    else (indexOfSub sub t).map (· + 1)

/-- Go `parseHost`: bracketed IPv6 hosts need a closing `]` and may carry an
RFC 6874 `%25` zone (host/zone/rest unescaped in their own modes); the port
after the bracket (or the last `:` otherwise) must be a valid optional
port; the host is validated and percent-decoded in `encodeHost` mode. -/
def parseHost (host : List Char) : Option (List Char) :=
  match host with
  | '[' :: _ =>
    match host.reverse.findIdx? (· = ']') with
    | none => none
    | some jr =>
      let i := host.length - 1 - jr
      let colonPort := host.drop (i + 1)
      if !validOptionalPort colonPort then none
      else
        match indexOfSub "%25".data (host.take i) with
        | some z => do
          let h1 ← unescapeHost (host.take z)
          let h2 ← unescapeZone ((host.take i).drop z)
          let h3 ← unescapeHost (host.drop i)
          pure (h1 ++ h2 ++ h3)
        | none => unescapeHost host
  | _ =>
    match host.reverse.findIdx? (· = ':') with
    | some jr =>
      let i := host.length - 1 - jr
      let colonPort := host.drop i
      if !validOptionalPort colonPort then none
      else unescapeHost host
    | none => unescapeHost host

/-- Go `validUserinfo`. -/
def validUserinfo (s : List Char) : Bool :=
  s.all fun r =>
    (('A' ≤ r ∧ r ≤ 'Z') ∨ ('a' ≤ r ∧ r ≤ 'z') ∨ ('0' ≤ r ∧ r ≤ '9') ∨
      r ∈ ['-', '.', '_', ':', '~', '!', '$', '&', '\'', '(', ')', '*', '+',
           ',', ';', '=', '%', '@'] : Prop)

/-- Go `parseAuthority`: userinfo before the last `@`, host after. -/
def parseAuthority (authority : List Char) : Option (List Char × List Char) :=
  match authority.reverse.findIdx? (· = '@') with
  | none => (parseHost authority).map (fun h => ([], h))
  | some jr =>
    let i := authority.length - 1 - jr
    match parseHost (authority.drop (i + 1)) with
    | none => none
    | some h =>
      let userinfo := authority.take i
      if validUserinfo userinfo ∧ validEsc userinfo = true then some (userinfo, h)
      else none

/-- Go `url.parse(rest, viaRequest := false)` after the fragment split. -/
def parseNoFrag (s : List Char) : Option GoURL :=
  if s.any ctlByte then none
  else if s = ['*'] then some { (default : GoURL) with path := "*" }
  else
    match getScheme s with
    | none => none
    | some (schemeRaw, afterScheme) =>
      let scheme : List Char := schemeRaw.map lowerChar
      let (rest, rawQuery) :=
        if afterScheme.getLast? = some '?' ∧ !(afterScheme.dropLast.any (· = '?')) then
          (afterScheme.dropLast, ([] : List Char))
        else splitOnceFwd afterScheme '?' true
      if !strStarts rest ['/'] then
        if scheme ≠ [] then
          some { (default : GoURL) with scheme := ⟨scheme⟩, opq := ⟨rest⟩, rawQuery := ⟨rawQuery⟩ }
        else
          let segment := (splitOnceFwd rest '/' true).1
          if segment.any (· = ':') then none
          else if validEsc rest then
            some { (default : GoURL) with
                   scheme := ⟨scheme⟩
                   path := ⟨unescapePct rest⟩
                   rawQuery := ⟨rawQuery⟩ }
          else none
      else
        if (scheme ≠ [] ∨ ¬ strStarts rest ['/', '/', '/']) ∧ strStarts rest ['/', '/'] then
          let (authority, rest') := splitOnceFwd (rest.drop 2) '/' false
          match parseAuthority authority with
          | none => none
          | some (user, host) =>
            if validEsc rest' then
              some { scheme := ⟨scheme⟩
                     opq := ""
                     user := ⟨user⟩
                     host := ⟨host⟩
                     path := ⟨unescapePct rest'⟩
                     rawQuery := ⟨rawQuery⟩
                     fragment := "" }
            else none
        else
          if validEsc rest then
            some { (default : GoURL) with
                   scheme := ⟨scheme⟩
                   path := ⟨unescapePct rest⟩
                   rawQuery := ⟨rawQuery⟩ }
          else none

/-- Go `net/url.Parse`. -/
def urlParse (rawURL : String) : Option GoURL :=
  let (u, frag) := splitOnceFwd rawURL.data '#' true
  match parseNoFrag u with
  | none => none
  | some url =>
    if validEsc frag then some { url with fragment := ⟨unescapePct frag⟩ }
    else none

/-! ## `internal/geo`: the GeoResolver

The MaxMind database is an external binary file; `db` is modelled as the
lookup it provides: `none` at an IP models a `maxminddb` lookup error, and a
missing key in a `Names` map yields Go's zero value `""` (a no-match lookup
leaves the whole record at its zero value). -/

/-- `geo.Result`. -/
structure GeoResult where
  country : String
  city : String
  region : String
  latitude : Float
  longitude : Float

/-- The record shape `geo.Reader.Lookup` decodes from the database. -/
structure MMRecord where
  countryISOCode : String
  countryNames : List (String × String)
  cityNames : List (String × String)
  subdivisions : List (List (String × String))
  latitude : Float
  longitude : Float

/-- `geo.Reader` (a nil `*maxminddb.Reader` is `db := none`). -/
structure GeoReader where
  db : Option (List Nat → Option MMRecord)

/-- The all-zero `geo.Result`. -/
def zeroGeoResult : GeoResult := ⟨"", "", "", 0, 0⟩

/-- `geo.Reader.Lookup` (the receiver may be nil, hence `Option GeoReader`). -/
def geoLookup (r : Option GeoReader) (ipStr : String) : GeoResult :=
  match r with
  | none => zeroGeoResult
  | some rd =>
    match rd.db with
    | none => zeroGeoResult
    | some db =>
      match parseIP ipStr with
      | none => zeroGeoResult
      | some ip =>
        match db ip with
        | none => zeroGeoResult
        | some record =>
          { country := record.countryISOCode
            city := ((record.cityNames.lookup "en").getD "")
            region :=
              match record.subdivisions with
              | [] => ""
              | sub :: _ => ((sub.lookup "en").getD "")
            latitude := record.latitude
            longitude := record.longitude }

/-! ## `internal/analytics` and `analytics.IsBot` -/

/-- The output of `mssola/useragent` for one UA string: `ua.Browser()`,
`ua.OS()`, `ua.Mobile()`, `ua.Bot()`.  The parser is an external library, so
it enters the model as a function `String → UAInfo`. -/
structure UAInfo where
  browserName : String
  browserVersion : String
  os : String
  mobile : Bool
  bot : Bool
  deriving DecidableEq

/-- `analytics.botSignatures`: substrings matched case-insensitively against
the User-Agent. -/
def botSignatures : List String :=
  ["bot", "spider", "crawl",
   "facebookexternalhit", "facebot", "whatsapp", "slackbot", "telegrambot",
   "applebot", "twitterbot", "linkedinbot", "preview",
   "google web preview", "google favicon", "google-ad",
   "google-site-verification", "googlesecurityscanner",
   "google_analytics_snippet_validator", "chrome-lighthouse",
   "burpcollaborator.net/", "zgrab/", "netcraftsurveyagent/",
   "netcraft web server survey",
   "go-http-client/", "curl/", "wget/", "python-requests/", "python-urllib/",
   "pycurl/", "java/", "libwww-perl/", "okhttp/", "ruby",
   "headlesschrome/", "dumprendertree/", "phantomjs", "slimerjs",
   "wkhtmltoimage", "wkhtmltopdf",
   "admantx", "alexatoolbar/", "bingpreview/", "dataprovider.com",
   "faraday v", "gigablastopensource/", "owler/", "pageanalyzer/",
   "panscient.com", "ruxitrecorder/", "ruxitsynthetic/", "synapse",
   "tracemyfile/", "trendsmapresolver/", "ubermetrics-technologies.com",
   "wappalyzer", "whatweb/", "wininet", "wordpress.com", "wsr-agent/"]

/-- `analytics.IsBot`: the UA parser's own bot classification, or any
cataloged signature occurring in the lowercased UA.  `parseUA` models
`useragent.New`. -/
def IsBot (parseUA : String → UAInfo) (rawUA : String) : Bool :=
  if (parseUA rawUA).bot then true
  else botSignatures.any fun sig => strContainsS (goToLower rawUA) sig

/-- `analytics.RawClick`. -/
structure RawClick where
  linkID : Int
  clickedAt : Nat
  ip : String
  userAgent : String
  referer : String
  deriving DecidableEq

/-- `models.Click` (the fields `Collector.enrich` fills). -/
structure Click where
  linkID : Int
  clickedAt : Nat
  ip : String
  userAgent : String
  referer : String
  refererDomain : String
  country : String
  city : String
  region : String
  latitude : Float
  longitude : Float
  browser : String
  browserVersion : String
  os : String
  deviceType : String

/-- `Collector.enrich`: UA-based browser/OS/device enrichment, referer-host
extraction, and geo resolution. -/
def enrich (parseUA : String → UAInfo) (geoReader : Option GeoReader)
    (raw : RawClick) : Click :=
  let ua := parseUA raw.userAgent
  let deviceType := if ua.mobile then "mobile" else if ua.bot then "bot" else "desktop"
  let refererDomain :=
    if raw.referer ≠ "" then
      match urlParse raw.referer with
      | some u => u.host
      | none => ""
    else ""
  let geoResult := geoLookup geoReader raw.ip
  { linkID := raw.linkID
    clickedAt := raw.clickedAt
    ip := raw.ip
    userAgent := raw.userAgent
    referer := raw.referer
    refererDomain := refererDomain
    country := geoResult.country
    city := geoResult.city
    region := geoResult.region
    latitude := geoResult.latitude
    longitude := geoResult.longitude
    browser := ua.browserName
    browserVersion := ua.browserVersion
    os := ua.os
    deviceType := deviceType }

/-- The collector's observable state: the bounded channel contents (FIFO),
its capacity, and the rows so far persisted by `models.BatchInsertClicks`. -/
structure CollectorState where
  cap : Nat
  buffer : List RawClick
  persisted : List Click

/-- `analytics.NewCollector`'s initial state for a given buffer size. -/
def collectorInit (bufferSize : Nat) : CollectorState :=
  { cap := bufferSize, buffer := [], persisted := [] }

/-- `Collector.Push`: a non-blocking channel send — the event is appended
when the buffer has room and silently dropped when it is at capacity. -/
def pushClick (st : CollectorState) (click : RawClick) : CollectorState :=
  if st.buffer.length < st.cap then { st with buffer := st.buffer ++ [click] }
  else st

def pushAll (st : CollectorState) (clicks : List RawClick) : CollectorState :=
  clicks.foldl pushClick st

/-- `Collector.flush`: drain the whole buffer into a batch; an empty batch
does nothing; otherwise enrich every event and submit one all-or-nothing
batch insert (`sinkOk` models its success — a failure is logged and the
batch dropped). -/
def flushClicks (parseUA : String → UAInfo) (geoReader : Option GeoReader)
    (sinkOk : Bool) (st : CollectorState) : CollectorState :=
  let batch := st.buffer
  if batch.length = 0 then st
  else
    let clicks := batch.map (enrich parseUA geoReader)
    if sinkOk then { st with buffer := [], persisted := st.persisted ++ clicks }
    else { st with buffer := [] }

/-- `Collector.Shutdown`: the run loop leaves its select on the stop signal,
performs one final flush, and only then closes `done`, unblocking the
`Shutdown` caller. -/
def shutdownCollector (parseUA : String → UAInfo) (geoReader : Option GeoReader)
    (sinkOk : Bool) (st : CollectorState) : CollectorState :=
  flushClicks parseUA geoReader sinkOk st

/-! ## Helper lemmas -/

theorem filterMap_id_eq_nil {α : Type} (l : List (Option α))
    (h : ∀ x ∈ l, x = none) : l.filterMap id = [] := by
  induction l with
  | nil => rfl
  | cons a t ih =>
    have ha := h a (by simp)
    subst ha
    simpa using ih (fun x hx => h x (by simp [hx]))

theorem length_filter_lt {β : Type} (l : List (String × β)) (k : String)
    (h : l.any (fun e => e.1 == k) = true) :
    (l.filter fun e => !(e.1 == k)).length < l.length := by
  induction l with
  | nil => simp at h
  | cons a t ih =>
    by_cases hk : a.1 = k
    · simp only [List.filter_cons, hk, beq_self_eq_true, Bool.not_true, Bool.false_eq_true,
        if_false, List.length_cons]
      exact Nat.lt_succ_of_le (List.length_filter_le _ _)
    · have hk' : (a.1 == k) = false := beq_eq_false_iff_ne.mpr hk
      simp only [List.any_cons, hk', Bool.false_or] at h
      simp only [List.filter_cons, hk', Bool.not_false, if_true, List.length_cons]
      exact Nat.succ_lt_succ (ih h)

theorem find?_filter_self {β : Type} (l : List (String × β)) (k : String) :
    ((l.filter fun x => !(x.1 == k)).find? fun x => x.1 == k) = none := by
  rw [List.find?_eq_none]
  intro x hx
  have hmem := (List.mem_filter.mp hx).2
  intro hbeq
  rw [hbeq] at hmem
  simp at hmem

theorem get_after_invalidate (c : LinkCacheM) (domain slug : String) :
    ((c.Invalidate domain slug).Get domain slug).1 = none := by
  simp only [LinkCacheM.Invalidate, LinkCacheM.Get, lruRemove, lruGet]
  rw [find?_filter_self]

theorem cacheStep_size (c : LinkCacheM) (op : CacheOp) :
    (cacheStep c op).size = c.size := by
  cases op with
  | set d s l =>
    simp only [cacheStep, LinkCacheM.Set, lruAdd]
    split <;> rfl
  | get d s =>
    simp only [cacheStep, LinkCacheM.Get, lruGet]
    split <;> rfl
  | invalidate d s => rfl

theorem lruAdd_length {c : LinkCacheM} (k : String) (v : Link)
    (h : c.entries.length ≤ c.size) :
    (lruAdd c k v).entries.length ≤ c.size := by
  unfold lruAdd
  split
  · next hp =>
    simp only [List.length_cons]
    exact Nat.succ_le_of_lt (Nat.lt_of_lt_of_le (length_filter_lt _ _ hp) h)
  · next hp =>
    dsimp only
    split
    · next hl =>
      simp only [List.length_dropLast, List.length_cons]
      omega
    · next hl =>
      simp only [List.length_cons] at hl ⊢
      omega

theorem cacheStep_length {c : LinkCacheM} (op : CacheOp)
    (h : c.entries.length ≤ c.size) :
    (cacheStep c op).entries.length ≤ c.size := by
  cases op with
  | set d s l => exact lruAdd_length _ _ h
  | get d s =>
    simp only [cacheStep, LinkCacheM.Get, lruGet]
    cases hf : c.entries.find? (fun e => e.1 == cacheKey d s) with
    | none => simpa using h
    | some e =>
      simp only [List.length_cons]
      have hmem : e ∈ c.entries := List.mem_of_find?_eq_some hf
      have hpe := List.find?_some hf
      have hany : c.entries.any (fun x => x.1 == cacheKey d s) = true := by
        rw [List.any_eq_true]
        exact ⟨e, hmem, by simpa using hpe⟩
      exact Nat.succ_le_of_lt (Nat.lt_of_lt_of_le (length_filter_lt _ _ hany) h)
  | invalidate d s =>
    simp only [cacheStep, LinkCacheM.Invalidate, lruRemove]
    exact le_trans (List.length_filter_le _ _) h

theorem runOps_aux (ops : List CacheOp) :
    ∀ c : LinkCacheM, c.entries.length ≤ c.size →
      (ops.foldl cacheStep c).entries.length ≤ (ops.foldl cacheStep c).size := by
  induction ops with
  | nil => intro c h; simpa using h
  | cons op rest ih =>
    intro c h
    simp only [List.foldl_cons]
    exact ih _ (by rw [cacheStep_size]; exact cacheStep_length op h)

theorem foldl_cacheStep_size (ops : List CacheOp) :
    ∀ c : LinkCacheM, (ops.foldl cacheStep c).size = c.size := by
  induction ops with
  | nil => intro c; rfl
  | cons op rest ih =>
    intro c
    simp only [List.foldl_cons]
    rw [ih, cacheStep_size]

/-! ## Claim theorems -/

/-- C5: for every `set`/`get` history against a RedirectCache of capacity
`N ≥ 1`, the cache never holds more than `N` entries; `get` counts as a use
for recency; an insertion of a fresh key into a full cache evicts exactly
the least-recently-used entry (the tail of the recency list) and keeps all
others; and in the concrete capacity-2 scenario `set a, set b, get a, set c`
the entry `b` is evicted while `a` and `c` remain. -/
theorem redirectCache_lru_bounded (N : Nat) (hN : 1 ≤ N) :
    (∀ ops : List CacheOp, (runOps N ops).entries.length ≤ N) ∧
    (∀ (c : LinkCacheM) (k : String) (v : Link),
        c.size = N → c.entries.length = N →
        c.entries.any (fun e => e.1 == k) = false →
        (lruAdd c k v).entries = (k, v) :: c.entries.dropLast) ∧
    (∀ la lb lc : Link,
        (((((((⟨2, []⟩ : LinkCacheM).Set "d" "a" la).Set "d" "b" lb).Get
            "d" "a").2).Set "d" "c" lc).Get "d" "b").1 = none ∧
        (((((((⟨2, []⟩ : LinkCacheM).Set "d" "a" la).Set "d" "b" lb).Get
            "d" "a").2).Set "d" "c" lc).Get "d" "a").1 = some la ∧
        (((((((⟨2, []⟩ : LinkCacheM).Set "d" "a" la).Set "d" "b" lb).Get
            "d" "a").2).Set "d" "c" lc).Get "d" "c").1 = some lc) := by
  refine ⟨?_, ?_, ?_⟩
  · intro ops
    have h := runOps_aux ops ⟨N, []⟩ (by simp)
    rw [foldl_cacheStep_size ops ⟨N, []⟩] at h
    exact h
  · intro c k v hsz hfull hfresh
    simp only [lruAdd, hfresh, Bool.false_eq_true, if_false, List.length_cons, hfull, hsz]
    have hgt : N + 1 > N := Nat.lt_succ_self N
    simp only [hgt, if_true]
    have hne : c.entries ≠ [] := by
      intro hnil
      rw [hnil] at hfull
      simp at hfull
      omega
    cases hcs : c.entries with
    | nil => exact absurd hcs hne
    | cons a t => simp [List.dropLast]
  · intro la lb lc
    refine ⟨?_, ?_, ?_⟩ <;> rfl

/-- C1: a valid `LinkUpdate` invalidates the cache under the `(domain, slug)`
pair captured before the mutation (never the post-mutation pair: entries
under any other key, the new key included, are untouched), and afterwards
the cache has no entry under the old key; `LinkDelete` invalidates under the
fetched link's current `(domain, slug)` and afterwards the cache has no
entry under it. -/
theorem writePath_invalidatesOldKey (domains : List String)
    (buildDest : String → LinkForm → String) (existing : Link)
    (form : LinkForm) (cache : LinkCacheM)
    (hdest : form.destination ≠ "") (hslug : form.slug ≠ "")
    (hdom : isDomainAllowed domains (goToLower form.domain) = true) :
    (linkUpdate domains buildDest existing form cache).1
        = cache.Invalidate existing.domain existing.slug ∧
    (((linkUpdate domains buildDest existing form cache).1.Get
        existing.domain existing.slug).1 = none) ∧
    (∀ e ∈ cache.entries, e.1 ≠ cacheKey existing.domain existing.slug →
        e ∈ (linkUpdate domains buildDest existing form cache).1.entries) ∧
    (∀ (link : Link) (c : LinkCacheM),
        linkDelete (some link) c = c.Invalidate link.domain link.slug) ∧
    (∀ (link : Link) (c : LinkCacheM),
        ((linkDelete (some link) c).Get link.domain link.slug).1 = none) := by
  have hcache : (linkUpdate domains buildDest existing form cache).1
      = cache.Invalidate existing.domain existing.slug := by
    unfold linkUpdate
    have h1 : (form.destination == "") = false := beq_eq_false_iff_ne.mpr hdest
    have h2 : (form.slug == "") = false := beq_eq_false_iff_ne.mpr hslug
    simp [h1, h2, hdom]
  refine ⟨hcache, ?_, ?_, ?_, ?_⟩
  · rw [hcache]
    exact get_after_invalidate cache existing.domain existing.slug
  · intro e he hne
    rw [hcache]
    simp only [LinkCacheM.Invalidate, lruRemove]
    exact List.mem_filter.mpr ⟨he, by simpa using hne⟩
  · intro link c
    rfl
  · intro link c
    exact get_after_invalidate c link.domain link.slug

/-- C1 witness. -/
theorem writePath_invalidatesOldKey_witness :
    ((linkUpdate ["d.co"] (fun dest _ => dest)
        { id := 1, slug := "old", domain := "d.co", shortURL := "",
          destination := "https://x", title := "", tags := "", notes := "",
          isActive := true, createdAt := 0, updatedAt := 0 }
        { destination := "https://y", domain := "d.co", slug := "new",
          title := "", tags := "", notes := "", utmSource := "",
          utmMedium := "", utmCampaign := "", utmTerm := "", utmContent := "" }
        ⟨10, []⟩).1.Get "d.co" "old").1 = none :=
  (writePath_invalidatesOldKey ["d.co"] (fun dest _ => dest) _ _ ⟨10, []⟩
    (by decide) (by decide) (by decide)).2.1

/-- C2: in `Checker.refresh`, an empty aggregate CIDR list leaves the prior
range list unchanged, an empty aggregate blocked-IP set leaves the prior set
unchanged, each replacement depends only on its own sources' outcomes, and a
refresh in which every source errors leaves the whole index exactly as it
was. -/
theorem threatIndex_refresh_preserves (st : ThreatIndex)
    (rangeResults : List (Option (List IPNet)))
    (ipResults : List (Option (List String))) :
    ((rangeResults.filterMap id).flatten = [] →
        (refresh st rangeResults ipResults).ranges = st.ranges) ∧
    ((ipResults.filterMap id).flatten = [] →
        (refresh st rangeResults ipResults).blockedIPs = st.blockedIPs) ∧
    (∀ ipResults', (refresh st rangeResults ipResults).ranges
        = (refresh st rangeResults ipResults').ranges) ∧
    (∀ rangeResults', (refresh st rangeResults ipResults).blockedIPs
        = (refresh st rangeResults' ipResults).blockedIPs) ∧
    ((∀ x ∈ rangeResults, x = none) → (∀ x ∈ ipResults, x = none) →
        refresh st rangeResults ipResults = st) := by
  refine ⟨?_, ?_, ?_, ?_, ?_⟩
  · intro h
    simp [refresh, h]
  · intro h
    simp [refresh, h]
  · intro ipResults'
    rfl
  · intro rangeResults'
    rfl
  · intro hr hi
    have h1 : rangeResults.filterMap id = [] := filterMap_id_eq_nil _ hr
    have h2 : ipResults.filterMap id = [] := filterMap_id_eq_nil _ hi
    cases st
    simp [refresh, h1, h2]

/-- C2 witness. -/
theorem threatIndex_refresh_preserves_witness :
    refresh ⟨parseCIDRList akamaiCIDR, ["1.2.3.4"]⟩ [none] [none, none, none]
      = ⟨parseCIDRList akamaiCIDR, ["1.2.3.4"]⟩ :=
  (threatIndex_refresh_preserves ⟨parseCIDRList akamaiCIDR, ["1.2.3.4"]⟩
    [none] [none, none, none]).2.2.2.2
    (by intro x hx; simpa using hx) (by intro x hx; simpa using hx)

/-- C5 witness. -/
theorem redirectCache_lru_bounded_witness :
    (runOps 2 [CacheOp.set "d" "a" default, CacheOp.set "d" "b" default,
      CacheOp.get "d" "a", CacheOp.set "d" "c" default]).entries.length ≤ 2 :=
  (redirectCache_lru_bounded 2 (by decide)).1 _

/-- A UA-parser outcome reporting both the mobile and the bot flag (as the
`mssola/useragent` parser does for, e.g., smartphone crawler UAs). -/
def uaBothFlags : String → UAInfo :=
  fun _ => { browserName := "Chrome", browserVersion := "41.0", os := "Android",
             mobile := true, bot := true }

def rawClickC3 : RawClick :=
  { linkID := 1, clickedAt := 0, ip := "203.0.113.9",
    userAgent := "smartphone-crawler", referer := "" }

/-- C3 counterexample: at a parser outcome whose bot flag is set (together
with the mobile flag), `Collector.enrich` classifies the device as
`"mobile"`, not `"bot"` — the code checks `ua.Mobile()` before `ua.Bot()`,
so the claim "bot takes precedence over mobile" is false on the code. -/
theorem deviceType_botPrecedence_counterexample :
    (uaBothFlags rawClickC3.userAgent).bot = true ∧
    (enrich uaBothFlags none rawClickC3).deviceType = "mobile" ∧
    ("mobile" : String) ≠ "bot" := by
  refine ⟨rfl, rfl, by decide⟩

/-- C3 amended: the device class is `"mobile"` whenever the UA parser's
mobile flag is set, `"bot"` when the mobile flag is unset and the bot flag
is set, and `"desktop"` otherwise — mobile takes precedence over bot. -/
theorem deviceType_mobile_over_bot (parseUA : String → UAInfo)
    (geoReader : Option GeoReader) (raw : RawClick) :
    ((parseUA raw.userAgent).mobile = true →
      (enrich parseUA geoReader raw).deviceType = "mobile") ∧
    ((parseUA raw.userAgent).mobile = false → (parseUA raw.userAgent).bot = true →
      (enrich parseUA geoReader raw).deviceType = "bot") ∧
    ((parseUA raw.userAgent).mobile = false → (parseUA raw.userAgent).bot = false →
      (enrich parseUA geoReader raw).deviceType = "desktop") := by
  refine ⟨fun h1 => ?_, fun h1 h2 => ?_, fun h1 h2 => ?_⟩ <;>
    simp [enrich, h1]
  · simp [h2]
  · simp [h2]

/-- C3 amended witness. -/
theorem deviceType_mobile_over_bot_witness :
    (enrich (fun _ => ⟨"B", "1", "OS", false, true⟩) none
      ⟨1, 0, "203.0.113.9", "x", ""⟩).deviceType = "bot" :=
  (deviceType_mobile_over_bot (fun _ => ⟨"B", "1", "OS", false, true⟩) none
    ⟨1, 0, "203.0.113.9", "x", ""⟩).2.1 rfl rfl

/-- C6: a `Push` against a full buffer leaves the collector state unchanged
(the event is silently dropped; `Push` is a total function of the state —
the non-blocking `select` default case), and with a capacity-1 buffer,
pushing five events before any flush yields at most one persisted record. -/
theorem push_nonblocking_drop :
    (∀ (st : CollectorState) (e : RawClick),
        st.buffer.length = st.cap → pushClick st e = st) ∧
    (∀ (parseUA : String → UAInfo) (geoReader : Option GeoReader) (sinkOk : Bool)
        (e1 e2 e3 e4 e5 : RawClick),
        (flushClicks parseUA geoReader sinkOk
          (pushAll (collectorInit 1) [e1, e2, e3, e4, e5])).persisted.length ≤ 1) := by
  constructor
  · intro st e h
    unfold pushClick
    rw [if_neg (by omega)]
  · intro parseUA geoReader sinkOk e1 e2 e3 e4 e5
    have hbuf : pushAll (collectorInit 1) [e1, e2, e3, e4, e5]
        = { cap := 1, buffer := [e1], persisted := [] } := rfl
    rw [hbuf]
    cases sinkOk <;> simp [flushClicks]

/-- C6 witness. -/
theorem push_nonblocking_drop_witness :
    pushClick ⟨1, [⟨1, 0, "203.0.113.9", "ua", ""⟩], []⟩ ⟨2, 1, "203.0.113.10", "ua", ""⟩
      = ⟨1, [⟨1, 0, "203.0.113.9", "ua", ""⟩], []⟩ :=
  push_nonblocking_drop.1 ⟨1, [⟨1, 0, "203.0.113.9", "ua", ""⟩], []⟩
    ⟨2, 1, "203.0.113.10", "ua", ""⟩ rfl

/-- C7: `Shutdown` performs exactly one final drain-and-flush (its whole
effect is that of one `flush`), and when the sink write succeeds, every
event buffered at the time of the call is persisted (enriched, appended to
the sink) and the buffer is left empty. -/
theorem shutdown_final_flush (parseUA : String → UAInfo)
    (geoReader : Option GeoReader) (st : CollectorState) :
    (shutdownCollector parseUA geoReader true st).persisted
        = st.persisted ++ st.buffer.map (enrich parseUA geoReader) ∧
    (shutdownCollector parseUA geoReader true st).buffer = [] ∧
    (∀ sinkOk, shutdownCollector parseUA geoReader sinkOk st
        = flushClicks parseUA geoReader sinkOk st) := by
  refine ⟨?_, ?_, fun _ => rfl⟩ <;>
  · unfold shutdownCollector flushClicks
    rcases hb : st.buffer with _ | ⟨a, t⟩ <;> simp [hb]

/-- C8: `IsBot` is true exactly when the UA parser's own bot classification
fires or some cataloged signature occurs in the lowercased UA (any-of,
order-independent substring containment); in particular any UA containing
`"googlebot"` or `"curl/"` is classified as a bot. -/
theorem isBot_spec (parseUA : String → UAInfo) (ua : String) :
    (IsBot parseUA ua = true ↔
      ((parseUA ua).bot = true ∨
        ∃ sig ∈ botSignatures, strContainsS (goToLower ua) sig = true)) ∧
    (strContainsS ua "googlebot" = true → IsBot parseUA ua = true) ∧
    (strContainsS ua "curl/" = true → IsBot parseUA ua = true) := by
  have hbotCase : ∀ sig ∈ botSignatures, strContainsS (goToLower ua) sig = true →
      IsBot parseUA ua = true := by
    intro sig hmem hsub
    unfold IsBot
    cases hbot : (parseUA ua).bot
    · rw [if_neg (by simp [hbot])]
      exact List.any_eq_true.mpr ⟨sig, hmem, hsub⟩
    · rw [if_pos (by simp [hbot])]
  refine ⟨?_, ?_, ?_⟩
  · unfold IsBot
    cases hbot : (parseUA ua).bot
    · rw [if_neg (by simp [hbot])]
      simp [List.any_eq_true, hbot]
    · rw [if_pos (by simp [hbot])]
      simp [hbot]
  · intro h
    have hlow : strContains (ua.data.map lowerChar)
        ("googlebot".data.map lowerChar) = true := strContains_map lowerChar h
    have hgl : "googlebot".data.map lowerChar = "googlebot".data := by decide
    rw [hgl] at hlow
    have hsub : strContains "googlebot".data "bot".data = true := by decide
    exact hbotCase "bot" (by decide) (strContains_trans hlow hsub)
  · intro h
    have hlow : strContains (ua.data.map lowerChar)
        ("curl/".data.map lowerChar) = true := strContains_map lowerChar h
    have hgl : "curl/".data.map lowerChar = "curl/".data := by decide
    rw [hgl] at hlow
    exact hbotCase "curl/" (by decide) hlow

/-- C8 witness. -/
theorem isBot_spec_witness :
    IsBot (fun _ => ⟨"", "", "", false, false⟩) "Mozilla googlebot x" = true ∧
    IsBot (fun _ => ⟨"", "", "", false, false⟩) "curl/8.0" = true :=
  ⟨(isBot_spec (fun _ => ⟨"", "", "", false, false⟩) "Mozilla googlebot x").2.1
      (by decide),
   (isBot_spec (fun _ => ⟨"", "", "", false, false⟩) "curl/8.0").2.2 (by decide)⟩

/-- C10: the stored referer hostname is exactly the `Host` extracted by
parsing the raw referer URL, and is empty when the referer is empty or
unparseable; `"https://news.ycombinator.com/item?id=1"` enriches to
`"news.ycombinator.com"`. -/
theorem refererDomain_spec (parseUA : String → UAInfo)
    (geoReader : Option GeoReader) (raw : RawClick) :
    ((enrich parseUA geoReader raw).refererDomain =
      if raw.referer ≠ "" then
        match urlParse raw.referer with
        | some u => u.host
        | none => ""
      else "") ∧
    (raw.referer = "" → (enrich parseUA geoReader raw).refererDomain = "") ∧
    (urlParse raw.referer = none →
        (enrich parseUA geoReader raw).refererDomain = "") ∧
    ((enrich parseUA geoReader
        { raw with referer := "https://news.ycombinator.com/item?id=1" }).refererDomain
      = "news.ycombinator.com") := by
  have hmain : (enrich parseUA geoReader raw).refererDomain =
      if raw.referer ≠ "" then
        match urlParse raw.referer with
        | some u => u.host
        | none => ""
      else "" := rfl
  refine ⟨hmain, ?_, ?_, ?_⟩
  · intro h
    rw [hmain, if_neg (not_not_intro h)]
  · intro hn
    rw [hmain]
    by_cases he : raw.referer = ""
    · rw [if_neg (not_not_intro he)]
    · rw [if_pos he, hn]
  · rfl

/-- C10 witness. -/
theorem refererDomain_spec_witness :
    (enrich (fun _ => ⟨"", "", "", false, false⟩) none
      ⟨1, 0, "203.0.113.9", "ua", ""⟩).refererDomain = "" :=
  (refererDomain_spec (fun _ => ⟨"", "", "", false, false⟩) none
    ⟨1, 0, "203.0.113.9", "ua", ""⟩).2.1 rfl

end Dubly
